import Mathlib

/-!
Verification of the dungeon-generation and input-handling core of a
turn-based roguelike (files `procgen.py` and `input_handlers.py`).

The embedding is shallow: Python integers become `Nat`/`Int`, the mutable
tile grid becomes the `Finset` of carved floor cells (only floor carving is
observable in the generator), and the ambient global random source is
threaded explicitly as a list of per-attempt draws (`Draw`), one record per
iteration of the placement loop.
-/

set_option maxRecDepth 4000

/-- A grid cell, `(x, y)` with non-negative integer coordinates. -/
abbrev Cell := Nat × Nat

/-- `RectangularRoom` from `procgen.py`: stores the two corners
`(x1, y1)` and `(x2, y2)` with `x2 = x + width`, `y2 = y + height`. -/
structure RectangularRoom where
  x1 : Nat
  y1 : Nat
  x2 : Nat
  y2 : Nat
deriving DecidableEq, Repr

/-- The `RectangularRoom.__init__` constructor: takes a top-left corner and
a width/height and stores the two corners. -/
def RectangularRoom.make (x y width height : Nat) : RectangularRoom :=
  ⟨x, y, x + width, y + height⟩

/-- `RectangularRoom.center`: integer truncation of the midpoint of the
bounds (`int((x1 + x2) / 2)`, which for non-negative ints is floor
division by 2). -/
def RectangularRoom.center (r : RectangularRoom) : Cell :=
  ((r.x1 + r.x2) / 2, (r.y1 + r.y2) / 2)

/-- `RectangularRoom.inner`: the interior area
`[x1+1, x2) x [y1+1, y2)` (Python slices exclude their upper end), as the
set of cells the generator carves to floor for this room. -/
def RectangularRoom.innerCells (r : RectangularRoom) : Finset Cell :=
  Finset.Ico (r.x1 + 1) r.x2 ×ˢ Finset.Ico (r.y1 + 1) r.y2

/-- `RectangularRoom.intersects`: closed-interval overlap test
`x1 <= other.x2 and x2 >= other.x1 and y1 <= other.y2 and y2 >= other.y1`. -/
def RectangularRoom.intersects (r other : RectangularRoom) : Prop :=
  r.x1 ≤ other.x2 ∧ r.x2 ≥ other.x1 ∧ r.y1 ≤ other.y2 ∧ r.y2 ≥ other.y1

instance (r other : RectangularRoom) : Decidable (r.intersects other) := by
  unfold RectangularRoom.intersects; infer_instance

/-- Membership in the closed rectangle `[x1, x2] x [y1, y2]` of a room. -/
def RectangularRoom.containsClosed (r : RectangularRoom) (p : Cell) : Prop :=
  r.x1 ≤ p.1 ∧ p.1 ≤ r.x2 ∧ r.y1 ≤ p.2 ∧ p.2 ≤ r.y2

/-- All integers between `a` and `b`, both endpoints included, as a list. -/
def natSpan (a b : Nat) : List Nat :=
  (List.range (max a b + 1 - min a b)).map (fun i => min a b + i)

/-- Horizontal run of cells from `(xa, y)` to `(xb, y)`, endpoints included.
This is the cell set of `tcod.los.bresenham` on a horizontal segment (the
library returns every point from start to end inclusive); enumeration order
is irrelevant because the caller only carves the cells. -/
def hline (xa xb y : Nat) : List Cell :=
  (natSpan xa xb).map (fun x => (x, y))

/-- Vertical run of cells from `(x, ya)` to `(x, yb)`, endpoints included:
the cell set of `tcod.los.bresenham` on a vertical segment. -/
def vline (x ya yb : Nat) : List Cell :=
  (natSpan ya yb).map (fun y => (x, y))

/-- `tunnel_between` from `procgen.py`: an L-shaped tunnel between two
points.  The 50/50 `random.random() < 0.5` draw is the explicit `coin`
argument: `true` is the horizontal-then-vertical branch with corner
`(x2, y1)`, `false` the vertical-then-horizontal branch with corner
`(x1, y2)`.  Each leg is axis-aligned, so the Bresenham rasterization is
exactly the straight run of cells between its endpoints, inclusive. -/
def tunnel_between (coin : Bool) (start stop : Cell) : List Cell :=
  if coin then
    hline start.1 stop.1 start.2 ++ vline stop.1 start.2 stop.2
  else
    vline start.1 start.2 stop.2 ++ hline start.1 stop.1 stop.2

/-- One iteration's worth of random draws in `generate_dungeon`:
`random.randint(room_min_size, room_max_size)` twice for the width and
height, `random.randint(0, dungeon.width - room_width - 1)` and the
analogous height draw for the origin, and the tunnel coin flip (consumed
only when a tunnel is dug; carrying it in every record is harmless). -/
structure Draw where
  w : Nat
  h : Nat
  x : Nat
  y : Nat
  coin : Bool
deriving DecidableEq, Repr

/-- The observable state built up by `generate_dungeon`: the set of carved
floor cells of `dungeon.tiles`, the accumulated `rooms` list in placement
order, and the player's `(x, y)` position. -/
structure GenState where
  floors : Finset Cell
  rooms : List RectangularRoom
  player : Cell
deriving DecidableEq

/-- The body of the `for r in range(max_rooms)` loop of `generate_dungeon`:
build the candidate room from this attempt's draws, skip it when it
intersects any accepted room, otherwise carve its interior and either set
the player position (first room) or carve a tunnel from the previous
accepted room's center (`rooms[-1].center`), then append it. -/
def attempt (st : GenState) (d : Draw) : GenState :=
  let new_room := RectangularRoom.make d.x d.y d.w d.h
  if ∃ other ∈ st.rooms, new_room.intersects other then st
  else
    let carved := st.floors ∪ new_room.innerCells
    match st.rooms.getLast? with
    | none =>
        { floors := carved
          rooms := st.rooms ++ [new_room]
          player := new_room.center }
    | some prev =>
        { floors := carved ∪ (tunnel_between d.coin prev.center new_room.center).toFinset
          rooms := st.rooms ++ [new_room]
          player := st.player }

/-- `generate_dungeon`: fold the placement loop over the `max_rooms`
attempts' draws, starting from an all-wall grid, an empty room list and
the player's incoming position. -/
def generate_dungeon (draws : List Draw) (player0 : Cell) : GenState :=
  draws.foldl attempt { floors := ∅, rooms := [], player := player0 }

/-- The `random.randint` post-conditions for one attempt's draws in
`generate_dungeon`: width and height within `[room_min_size,
room_max_size]`, and origin within `[0, map dimension - size - 1]`
(phrased additively so it is meaningful over `Nat`). -/
def ValidDraw (room_min_size room_max_size map_width map_height : Nat)
    (d : Draw) : Prop :=
  room_min_size ≤ d.w ∧ d.w ≤ room_max_size ∧
  room_min_size ≤ d.h ∧ d.h ≤ room_max_size ∧
  d.x + d.w + 1 ≤ map_width ∧ d.y + d.h + 1 ≤ map_height

instance (a b c d : Nat) (dr : Draw) : Decidable (ValidDraw a b c d dr) := by
  unfold ValidDraw; infer_instance

/-! ### Generic loop-invariant helpers -/

theorem foldl_preserves {α β : Type} (f : α → β → α) (P : α → Prop)
    (V : β → Prop) (step : ∀ a b, V b → P a → P (f a b)) :
    ∀ (l : List β) (a : α), (∀ b ∈ l, V b) → P a → P (l.foldl f a) := by
  intro l
  induction l with
  | nil => intro a _ ha; exact ha
  | cons x xs ih =>
      intro a hv ha
      exact ih (f a x) (fun b hb => hv b (List.mem_cons_of_mem x hb))
        (step a x (hv x (List.mem_cons_self x xs)) ha)

/-! ### C1: accepted rooms are pairwise disjoint -/

theorem intersects_comm (a b : RectangularRoom) :
    a.intersects b ↔ b.intersects a := by
  unfold RectangularRoom.intersects
  omega

theorem not_intersects_of_disjoint (a b : RectangularRoom)
    (h : ¬ a.intersects b) (p : Cell) :
    ¬ (a.containsClosed p ∧ b.containsClosed p) := by
  unfold RectangularRoom.intersects at h
  unfold RectangularRoom.containsClosed
  omega

theorem attempt_pairwise (st : GenState) (d : Draw)
    (h : st.rooms.Pairwise (fun a b => ¬ a.intersects b)) :
    (attempt st d).rooms.Pairwise (fun a b => ¬ a.intersects b) := by
  unfold attempt
  by_cases hex : ∃ other ∈ st.rooms, (RectangularRoom.make d.x d.y d.w d.h).intersects other
  · simp only [hex, if_true]; exact h
  · simp only [hex, if_false]
    have hall : ∀ a ∈ st.rooms,
        ¬ a.intersects (RectangularRoom.make d.x d.y d.w d.h) := by
      intro a ha hint
      exact hex ⟨a, ha, (intersects_comm _ _).mpr hint⟩
    cases hlast : st.rooms.getLast? with
    | none =>
        simp only [List.pairwise_append, List.pairwise_singleton,
          List.mem_singleton]
        exact ⟨h, trivial, fun a ha b hb => hb ▸ hall a ha⟩
    | some prev =>
        simp only [List.pairwise_append, List.pairwise_singleton,
          List.mem_singleton]
        exact ⟨h, trivial, fun a ha b hb => hb ▸ hall a ha⟩

/-- C1: for every execution of `generate_dungeon` (any sequence of random
draws, any starting player position), the accepted rooms are pairwise
non-overlapping under the closed-interval `intersects` test, and hence the
closed rectangles `[x1,x2] x [y1,y2]` of any two distinct accepted rooms
share no grid point (rooms sharing an edge would share a point, so they are
always rejected). -/
theorem generate_dungeon_rooms_pairwise_disjoint
    (draws : List Draw) (player0 : Cell) :
    (generate_dungeon draws player0).rooms.Pairwise
      (fun a b => ¬ a.intersects b ∧
        ∀ p : Cell, ¬ (a.containsClosed p ∧ b.containsClosed p)) := by
  have base : (generate_dungeon draws player0).rooms.Pairwise
      (fun a b => ¬ a.intersects b) := by
    have := foldl_preserves attempt
      (fun st => st.rooms.Pairwise (fun a b => ¬ a.intersects b))
      (fun _ => True)
      (fun st d _ hp => attempt_pairwise st d hp)
      draws { floors := ∅, rooms := [], player := player0 }
      (fun _ _ => trivial) (by simp)
    exact this
  exact base.imp (fun h => ⟨h, not_intersects_of_disjoint _ _ h⟩)

/-! ### C10: the first placement attempt is always accepted -/

theorem attempt_keeps_head_player (st : GenState) (d : Draw)
    (r : RectangularRoom) (p : Cell)
    (hh : st.rooms.head? = some r) (hp : st.player = p) :
    (attempt st d).rooms.head? = some r ∧ (attempt st d).player = p := by
  unfold attempt
  cases hrooms : st.rooms with
  | nil => simp [hrooms] at hh
  | cons a as =>
      simp only [hrooms, List.head?] at hh
      by_cases hex : ∃ other ∈ st.rooms,
          (RectangularRoom.make d.x d.y d.w d.h).intersects other
      · simp only [hrooms] at hex
        simp only [hrooms, hex, if_true]
        exact ⟨by simp [hh], hp⟩
      · simp only [hrooms] at hex
        simp only [hrooms, hex, if_false]
        cases hlast : (a :: as).getLast? with
        | none => simp [List.getLast?] at hlast
        | some prev => exact ⟨by simp [hh], hp⟩

/-- C10: with at least one placement attempt, the first attempt is always
accepted (the overlap check over the empty room list never rejects): the
first accepted room is exactly the rectangle built from the first draw,
and the player's position is set to its center, for every sequence of
draws. -/
theorem generate_dungeon_first_attempt_accepted
    (d : Draw) (ds : List Draw) (player0 : Cell) :
    (generate_dungeon (d :: ds) player0).rooms.head? =
        some (RectangularRoom.make d.x d.y d.w d.h) ∧
      (generate_dungeon (d :: ds) player0).player =
        (RectangularRoom.make d.x d.y d.w d.h).center ∧
      (generate_dungeon (d :: ds) player0).rooms ≠ [] := by
  have hstep : attempt { floors := ∅, rooms := [], player := player0 } d =
      { floors := ∅ ∪ (RectangularRoom.make d.x d.y d.w d.h).innerCells
        rooms := [RectangularRoom.make d.x d.y d.w d.h]
        player := (RectangularRoom.make d.x d.y d.w d.h).center } := by
    unfold attempt
    simp
  have main : ∀ (l : List Draw) (st : GenState) (r : RectangularRoom) (p : Cell),
      st.rooms.head? = some r → st.player = p →
      (l.foldl attempt st).rooms.head? = some r ∧ (l.foldl attempt st).player = p := by
    intro l
    induction l with
    | nil => intro st r p hh hp; exact ⟨hh, hp⟩
    | cons x xs ih =>
        intro st r p hh hp
        have := attempt_keeps_head_player st x r p hh hp
        exact ih (attempt st x) r p this.1 this.2
  have h := main ds (attempt { floors := ∅, rooms := [], player := player0 } d)
    (RectangularRoom.make d.x d.y d.w d.h)
    (RectangularRoom.make d.x d.y d.w d.h).center
    (by rw [hstep]; rfl) (by rw [hstep])
  refine ⟨h.1, h.2, ?_⟩
  intro hnil
  have := h.1
  rw [show (generate_dungeon (d :: ds) player0) =
    (ds.foldl attempt (attempt { floors := ∅, rooms := [], player := player0 } d)) by
      rfl] at hnil
  rw [hnil] at this
  simp at this

/-! ### Membership characterizations for line segments -/

theorem mem_natSpan (a b i : Nat) :
    i ∈ natSpan a b ↔ min a b ≤ i ∧ i ≤ max a b := by
  simp only [natSpan, List.mem_map, List.mem_range]
  constructor
  · rintro ⟨j, hj, rfl⟩; omega
  · rintro ⟨hl, hu⟩; exact ⟨i - min a b, by omega, by omega⟩

theorem mem_hline (xa xb y : Nat) (c : Cell) :
    c ∈ hline xa xb y ↔
      min xa xb ≤ c.1 ∧ c.1 ≤ max xa xb ∧ c.2 = y := by
  simp only [hline, List.mem_map, mem_natSpan]
  constructor
  · rintro ⟨x, ⟨hl, hu⟩, rfl⟩; exact ⟨hl, hu, rfl⟩
  · rintro ⟨hl, hu, hy⟩
    exact ⟨c.1, ⟨hl, hu⟩, by rw [← hy]⟩

theorem mem_vline (x ya yb : Nat) (c : Cell) :
    c ∈ vline x ya yb ↔
      c.1 = x ∧ min ya yb ≤ c.2 ∧ c.2 ≤ max ya yb := by
  simp only [vline, List.mem_map, mem_natSpan]
  constructor
  · rintro ⟨y, ⟨hl, hu⟩, rfl⟩; exact ⟨rfl, hl, hu⟩
  · rintro ⟨hx, hl, hu⟩
    exact ⟨c.2, ⟨hl, hu⟩, by rw [← hx]⟩

theorem mem_tunnel_bounds (coin : Bool) (p q c : Cell)
    (hc : c ∈ tunnel_between coin p q) :
    c.1 ≤ max p.1 q.1 ∧ c.2 ≤ max p.2 q.2 := by
  unfold tunnel_between at hc
  cases coin with
  | true =>
      simp only [if_true, List.mem_append] at hc
      rcases hc with h | h
      · rw [mem_hline] at h; omega
      · rw [mem_vline] at h; omega
  | false =>
      simp only [if_false, Bool.false_eq_true, List.mem_append] at hc
      rcases hc with h | h
      · rw [mem_vline] at h; omega
      · rw [mem_hline] at h; omega

/-! ### C7: single-room scenario -/

/-- C7: for every valid sequence of draws, `generate_dungeon` with
`max_rooms = 1`, `room_min_size = room_max_size = 4` on a 20 x 20 map
accepts exactly one room, a 4 x 4 rectangle lying inside the grid, sets the
player's position to that room's center, and carves exactly the room's
interior (no tunnel cells). -/
theorem generate_dungeon_single_room_scenario (d : Draw) (p0 : Cell)
    (hd : ValidDraw 4 4 20 20 d) :
    ∃ r : RectangularRoom,
      (generate_dungeon [d] p0).rooms = [r] ∧
      r.x2 = r.x1 + 4 ∧ r.y2 = r.y1 + 4 ∧
      r.x2 ≤ 19 ∧ r.y2 ≤ 19 ∧
      (generate_dungeon [d] p0).player = r.center ∧
      (generate_dungeon [d] p0).floors = r.innerCells := by
  obtain ⟨hw1, hw2, hh1, hh2, hx, hy⟩ := hd
  refine ⟨RectangularRoom.make d.x d.y d.w d.h, ?_, ?_, ?_, ?_, ?_, ?_, ?_⟩
  · show (attempt { floors := ∅, rooms := [], player := p0 } d).rooms = _
    unfold attempt; simp
  · show d.x + d.w = d.x + 4; omega
  · show d.y + d.h = d.y + 4; omega
  · show d.x + d.w ≤ 19; omega
  · show d.y + d.h ≤ 19; omega
  · show (attempt { floors := ∅, rooms := [], player := p0 } d).player = _
    unfold attempt; simp
  · show (attempt { floors := ∅, rooms := [], player := p0 } d).floors = _
    unfold attempt; simp

/-- Witness for C7 at the concrete draw `w = h = 4`, origin `(5, 7)`. -/
theorem generate_dungeon_single_room_scenario_witness :
    ValidDraw 4 4 20 20 ⟨4, 4, 5, 7, false⟩ ∧
    ∃ r : RectangularRoom,
      (generate_dungeon [⟨4, 4, 5, 7, false⟩] (0, 0)).rooms = [r] ∧
      r.x2 = r.x1 + 4 ∧ r.y2 = r.y1 + 4 ∧
      r.x2 ≤ 19 ∧ r.y2 ≤ 19 ∧
      (generate_dungeon [⟨4, 4, 5, 7, false⟩] (0, 0)).player = r.center ∧
      (generate_dungeon [⟨4, 4, 5, 7, false⟩] (0, 0)).floors = r.innerCells :=
  ⟨by decide, generate_dungeon_single_room_scenario ⟨4, 4, 5, 7, false⟩ (0, 0) (by decide)⟩

/-! ### C9: bounds safety -/

/-- The loop invariant for bounds safety: every accepted room's closed
rectangle lies inside the grid, and every carved floor cell is in bounds. -/
def InBounds (W H : Nat) (st : GenState) : Prop :=
  (∀ r ∈ st.rooms, r.x1 ≤ r.x2 ∧ r.y1 ≤ r.y2 ∧ r.x2 < W ∧ r.y2 < H) ∧
  (∀ c ∈ st.floors, c.1 < W ∧ c.2 < H)

theorem mem_of_getLast?_eq {α : Type} {l : List α} {a : α}
    (h : l.getLast? = some a) : a ∈ l := by
  rw [List.getLast?_eq_some_iff] at h
  obtain ⟨l', rfl⟩ := h
  simp

theorem center_le_bounds (r : RectangularRoom)
    (hx : r.x1 ≤ r.x2) (hy : r.y1 ≤ r.y2) :
    r.center.1 ≤ r.x2 ∧ r.center.2 ≤ r.y2 := by
  show (r.x1 + r.x2) / 2 ≤ r.x2 ∧ (r.y1 + r.y2) / 2 ≤ r.y2
  omega

theorem attempt_inBounds (rmin rmax W H : Nat) (st : GenState) (d : Draw)
    (hv : ValidDraw rmin rmax W H d) (hb : InBounds W H st) :
    InBounds W H (attempt st d) := by
  obtain ⟨hw1, hw2, hh1, hh2, hx, hy⟩ := hv
  obtain ⟨hrooms, hfloors⟩ := hb
  unfold attempt
  by_cases hex : ∃ other ∈ st.rooms, (RectangularRoom.make d.x d.y d.w d.h).intersects other
  · simp only [hex, if_true]; exact ⟨hrooms, hfloors⟩
  · simp only [hex, if_false]
    have hnewbounds : (RectangularRoom.make d.x d.y d.w d.h).x1 ≤ (RectangularRoom.make d.x d.y d.w d.h).x2 ∧
        (RectangularRoom.make d.x d.y d.w d.h).y1 ≤ (RectangularRoom.make d.x d.y d.w d.h).y2 ∧
        (RectangularRoom.make d.x d.y d.w d.h).x2 < W ∧
        (RectangularRoom.make d.x d.y d.w d.h).y2 < H := by
      refine ⟨?_, ?_, ?_, ?_⟩
      · show d.x ≤ d.x + d.w; omega
      · show d.y ≤ d.y + d.h; omega
      · show d.x + d.w < W; omega
      · show d.y + d.h < H; omega
    have hinner : ∀ c ∈ (RectangularRoom.make d.x d.y d.w d.h).innerCells,
        c.1 < W ∧ c.2 < H := by
      intro c hc
      unfold RectangularRoom.innerCells RectangularRoom.make at hc
      simp only [Finset.mem_product, Finset.mem_Ico] at hc
      omega
    cases hlast : st.rooms.getLast? with
    | none =>
        refine ⟨?_, ?_⟩
        · intro r hr
          simp only [List.mem_append, List.mem_singleton] at hr
          rcases hr with hr | hr
          · exact hrooms r hr
          · rw [hr]; exact hnewbounds
        · intro c hc
          simp only [Finset.mem_union] at hc
          rcases hc with hc | hc
          · exact hfloors c hc
          · exact hinner c hc
    | some prev =>
        have hprev : prev ∈ st.rooms := mem_of_getLast?_eq hlast
        have hprevb := hrooms prev hprev
        refine ⟨?_, ?_⟩
        · intro r hr
          simp only [List.mem_append, List.mem_singleton] at hr
          rcases hr with hr | hr
          · exact hrooms r hr
          · rw [hr]; exact hnewbounds
        · intro c hc
          simp only [Finset.mem_union, List.mem_toFinset] at hc
          rcases hc with (hc | hc) | hc
          · exact hfloors c hc
          · exact hinner c hc
          · have hbnd := mem_tunnel_bounds d.coin prev.center
              (RectangularRoom.make d.x d.y d.w d.h).center c hc
            have hc1 := center_le_bounds prev hprevb.1 hprevb.2.1
            have hc2 := center_le_bounds (RectangularRoom.make d.x d.y d.w d.h)
              hnewbounds.1 hnewbounds.2.1
            have hx2 : (RectangularRoom.make d.x d.y d.w d.h).x2 = d.x + d.w := rfl
            have hy2 : (RectangularRoom.make d.x d.y d.w d.h).y2 = d.y + d.h := rfl
            rw [hx2] at hc2
            rw [hy2] at hc2
            omega

/-- C9: under the documented preconditions
`1 ≤ room_min_size ≤ room_max_size < map_width, map_height`, every
random-range call of `generate_dungeon` has a non-empty range (the origin
draw's upper bound `map dimension - size - 1` is never negative), and every
tile write — room interiors and tunnels — lands inside
`[0, map_width-1] x [0, map_height-1]`. -/
theorem generate_dungeon_safety (rmin rmax W H : Nat)
    (draws : List Draw) (p0 : Cell)
    (h1 : 1 ≤ rmin) (h2 : rmin ≤ rmax) (h3 : rmax < W) (h4 : rmax < H)
    (hd : ∀ d ∈ draws, ValidDraw rmin rmax W H d) :
    (rmin ≤ rmax ∧
      ∀ w : Nat, rmin ≤ w → w ≤ rmax →
        0 ≤ (W : Int) - (w : Int) - 1 ∧ 0 ≤ (H : Int) - (w : Int) - 1) ∧
    ∀ c ∈ (generate_dungeon draws p0).floors, c.1 < W ∧ c.2 < H := by
  refine ⟨⟨h2, ?_⟩, ?_⟩
  · intro w hwl hwu; omega
  · have hinv := foldl_preserves attempt (InBounds W H)
      (ValidDraw rmin rmax W H)
      (fun st d hv hb => attempt_inBounds rmin rmax W H st d hv hb)
      draws { floors := ∅, rooms := [], player := p0 }
      hd (by constructor <;> simp)
    exact hinv.2

/-- Witness for C9 at concrete parameters and a single valid draw. -/
theorem generate_dungeon_safety_witness :
    (1 ≤ 2 ∧ 2 ≤ 4 ∧ 4 < 20 ∧ 4 < 18 ∧
      ∀ d ∈ [(⟨3, 2, 6, 9, true⟩ : Draw)], ValidDraw 2 4 20 18 d) ∧
    ((2 ≤ 4 ∧
      ∀ w : Nat, 2 ≤ w → w ≤ 4 →
        0 ≤ (20 : Int) - (w : Int) - 1 ∧ 0 ≤ (18 : Int) - (w : Int) - 1) ∧
    ∀ c ∈ (generate_dungeon [⟨3, 2, 6, 9, true⟩] (0, 0)).floors,
      c.1 < 20 ∧ c.2 < 18) :=
  ⟨by decide,
    generate_dungeon_safety 2 4 20 18 [⟨3, 2, 6, 9, true⟩] (0, 0)
      (by decide) (by decide) (by decide) (by decide) (by decide)⟩

/-! ### C2: connectivity of the carved floor -/

/-- Orthogonal adjacency of grid cells. -/
def Adj (p q : Cell) : Prop :=
  (p.1 = q.1 ∧ (p.2 + 1 = q.2 ∨ q.2 + 1 = p.2)) ∨
  (p.2 = q.2 ∧ (p.1 + 1 = q.1 ∨ q.1 + 1 = p.1))

/-- One movement step between two carved floor cells. -/
def Step (F : Finset Cell) (p q : Cell) : Prop :=
  p ∈ F ∧ q ∈ F ∧ Adj p q

/-- Reachability through orthogonally adjacent carved floor cells (the
reflexive-transitive closure of `Step`). -/
def Reaches (F : Finset Cell) (a b : Cell) : Prop :=
  Relation.ReflTransGen (Step F) a b

theorem step_symm (F : Finset Cell) : Symmetric (Step F) := by
  rintro p q ⟨hp, hq, hadj⟩
  refine ⟨hq, hp, ?_⟩
  unfold Adj at hadj ⊢
  tauto

theorem reaches_refl (F : Finset Cell) (a : Cell) : Reaches F a a :=
  Relation.ReflTransGen.refl

theorem reaches_trans {F : Finset Cell} {a b c : Cell}
    (h1 : Reaches F a b) (h2 : Reaches F b c) : Reaches F a c :=
  Relation.ReflTransGen.trans h1 h2

theorem reaches_symm {F : Finset Cell} {a b : Cell}
    (h : Reaches F a b) : Reaches F b a :=
  Relation.ReflTransGen.symmetric (step_symm F) h

theorem reaches_mono {F F' : Finset Cell} (hsub : F ⊆ F') {a b : Cell}
    (h : Reaches F a b) : Reaches F' a b :=
  Relation.ReflTransGen.mono
    (fun _ _ hs => ⟨hsub hs.1, hsub hs.2.1, hs.2.2⟩) h

theorem reaches_right (F : Finset Cell) (y u : Nat) :
    ∀ v, u ≤ v → (∀ x, u ≤ x → x ≤ v → (x, y) ∈ F) →
      Reaches F (u, y) (v, y) := by
  intro v huv
  induction v, huv using Nat.le_induction with
  | base => intro _; exact Relation.ReflTransGen.refl
  | succ n hn ih =>
      intro hset
      exact (ih (fun x hx hx' => hset x hx (Nat.le_succ_of_le hx'))).tail
        ⟨hset n hn (Nat.le_succ n),
         hset (n + 1) (Nat.le_trans hn (Nat.le_succ n)) le_rfl,
         Or.inr ⟨rfl, Or.inl rfl⟩⟩

theorem reaches_horiz (F : Finset Cell) (y u v : Nat)
    (hset : ∀ x, min u v ≤ x → x ≤ max u v → (x, y) ∈ F) :
    Reaches F (u, y) (v, y) := by
  rcases Nat.le_total u v with h | h
  · exact reaches_right F y u v h (fun x hx hx' => hset x (by omega) (by omega))
  · exact reaches_symm
      (reaches_right F y v u h (fun x hx hx' => hset x (by omega) (by omega)))

theorem reaches_down (F : Finset Cell) (x u : Nat) :
    ∀ v, u ≤ v → (∀ y, u ≤ y → y ≤ v → (x, y) ∈ F) →
      Reaches F (x, u) (x, v) := by
  intro v huv
  induction v, huv using Nat.le_induction with
  | base => intro _; exact Relation.ReflTransGen.refl
  | succ n hn ih =>
      intro hset
      exact (ih (fun y hy hy' => hset y hy (Nat.le_succ_of_le hy'))).tail
        ⟨hset n hn (Nat.le_succ n),
         hset (n + 1) (Nat.le_trans hn (Nat.le_succ n)) le_rfl,
         Or.inl ⟨rfl, Or.inl rfl⟩⟩

theorem reaches_vert (F : Finset Cell) (x u v : Nat)
    (hset : ∀ y, min u v ≤ y → y ≤ max u v → (x, y) ∈ F) :
    Reaches F (x, u) (x, v) := by
  rcases Nat.le_total u v with h | h
  · exact reaches_down F x u v h (fun y hy hy' => hset y (by omega) (by omega))
  · exact reaches_symm
      (reaches_down F x v u h (fun y hy hy' => hset y (by omega) (by omega)))

theorem hline_reaches (F : Finset Cell) (xa xb y : Nat)
    (hsub : ∀ c ∈ hline xa xb y, c ∈ F) :
    ∀ c ∈ hline xa xb y, Reaches F (xa, y) c := by
  intro c hc
  rw [mem_hline] at hc
  obtain ⟨h1, h2, h3⟩ := hc
  have hr : Reaches F (xa, y) (c.1, y) := by
    refine reaches_horiz F y xa c.1 (fun x hx hx' => ?_)
    exact hsub (x, y) (by rw [mem_hline]; exact ⟨by omega, by omega, rfl⟩)
  have : (c.1, y) = c := by
    rw [← h3]
  rwa [this] at hr

theorem vline_reaches (F : Finset Cell) (x ya yb : Nat)
    (hsub : ∀ c ∈ vline x ya yb, c ∈ F) :
    ∀ c ∈ vline x ya yb, Reaches F (x, ya) c := by
  intro c hc
  rw [mem_vline] at hc
  obtain ⟨h1, h2, h3⟩ := hc
  have hr : Reaches F (x, ya) (x, c.2) := by
    refine reaches_vert F x ya c.2 (fun yy hy hy' => ?_)
    exact hsub (x, yy) (by rw [mem_vline]; exact ⟨rfl, by omega, by omega⟩)
  have : (x, c.2) = c := by
    rw [← h1]
  rwa [this] at hr

theorem tunnel_start_mem (coin : Bool) (p q : Cell) :
    p ∈ tunnel_between coin p q := by
  unfold tunnel_between
  cases coin with
  | true =>
      simp only [if_true, List.mem_append]
      exact Or.inl ((mem_hline p.1 q.1 p.2 p).mpr ⟨by omega, by omega, rfl⟩)
  | false =>
      simp only [Bool.false_eq_true, if_false, List.mem_append]
      exact Or.inl ((mem_vline p.1 p.2 q.2 p).mpr ⟨rfl, by omega, by omega⟩)

theorem tunnel_stop_mem (coin : Bool) (p q : Cell) :
    q ∈ tunnel_between coin p q := by
  unfold tunnel_between
  cases coin with
  | true =>
      simp only [if_true, List.mem_append]
      exact Or.inr ((mem_vline q.1 p.2 q.2 q).mpr ⟨rfl, by omega, by omega⟩)
  | false =>
      simp only [Bool.false_eq_true, if_false, List.mem_append]
      exact Or.inr ((mem_hline p.1 q.1 q.2 q).mpr ⟨by omega, by omega, rfl⟩)

theorem tunnel_reaches (F : Finset Cell) (coin : Bool) (p q : Cell)
    (hsub : ∀ c ∈ tunnel_between coin p q, c ∈ F) :
    ∀ c ∈ tunnel_between coin p q, Reaches F p c := by
  unfold tunnel_between at hsub ⊢
  cases coin with
  | true =>
      simp only [if_true, List.mem_append] at hsub ⊢
      have hsub1 : ∀ c ∈ hline p.1 q.1 p.2, c ∈ F := fun c hc => hsub c (Or.inl hc)
      have hsub2 : ∀ c ∈ vline q.1 p.2 q.2, c ∈ F := fun c hc => hsub c (Or.inr hc)
      intro c hc
      rcases hc with hc | hc
      · exact hline_reaches F p.1 q.1 p.2 hsub1 c hc
      · have hcorner : Reaches F p (q.1, p.2) :=
          hline_reaches F p.1 q.1 p.2 hsub1 (q.1, p.2)
            ((mem_hline p.1 q.1 p.2 (q.1, p.2)).mpr ⟨by omega, by omega, rfl⟩)
        exact reaches_trans hcorner (vline_reaches F q.1 p.2 q.2 hsub2 c hc)
  | false =>
      simp only [Bool.false_eq_true, if_false, List.mem_append] at hsub ⊢
      have hsub1 : ∀ c ∈ vline p.1 p.2 q.2, c ∈ F := fun c hc => hsub c (Or.inl hc)
      have hsub2 : ∀ c ∈ hline p.1 q.1 q.2, c ∈ F := fun c hc => hsub c (Or.inr hc)
      intro c hc
      rcases hc with hc | hc
      · exact vline_reaches F p.1 p.2 q.2 hsub1 c hc
      · have hcorner : Reaches F p (p.1, q.2) :=
          vline_reaches F p.1 p.2 q.2 hsub1 (p.1, q.2)
            ((mem_vline p.1 p.2 q.2 (p.1, q.2)).mpr ⟨rfl, by omega, by omega⟩)
        exact reaches_trans hcorner (hline_reaches F p.1 q.1 q.2 hsub2 c hc)

theorem center_mem_inner (r : RectangularRoom) (hne : r.innerCells.Nonempty) :
    r.center ∈ r.innerCells := by
  obtain ⟨c, hc⟩ := hne
  unfold RectangularRoom.innerCells at hc ⊢
  simp only [Finset.mem_product, Finset.mem_Ico] at hc ⊢
  unfold RectangularRoom.center
  simp only
  omega

theorem inner_reaches (F : Finset Cell) (r : RectangularRoom)
    (hsub : ∀ c ∈ r.innerCells, c ∈ F) :
    ∀ c ∈ r.innerCells, Reaches F r.center c := by
  intro c hc
  have hcen := center_mem_inner r ⟨c, hc⟩
  unfold RectangularRoom.innerCells at hc hcen
  simp only [Finset.mem_product, Finset.mem_Ico] at hc hcen
  have hmem : ∀ x y : Nat, r.x1 + 1 ≤ x → x < r.x2 → r.y1 + 1 ≤ y → y < r.y2 →
      (x, y) ∈ F := by
    intro x y hx1 hx2 hy1 hy2
    refine hsub (x, y) ?_
    unfold RectangularRoom.innerCells
    simp only [Finset.mem_product, Finset.mem_Ico]
    exact ⟨⟨hx1, hx2⟩, hy1, hy2⟩
  have hstep1 : Reaches F (r.center.1, r.center.2) (c.1, r.center.2) := by
    refine reaches_horiz F r.center.2 r.center.1 c.1 (fun x hx hx' => ?_)
    exact hmem x r.center.2 (by omega) (by omega) (by omega) (by omega)
  have hstep2 : Reaches F (c.1, r.center.2) (c.1, c.2) := by
    refine reaches_vert F c.1 r.center.2 c.2 (fun y hy hy' => ?_)
    exact hmem c.1 y (by omega) (by omega) (by omega) (by omega)
  exact reaches_trans hstep1 hstep2

/-- The generation-loop invariant behind C2: once a first room exists,
every carved floor cell and every accepted room's center is reachable
from the first accepted room's center through carved floor cells. -/
def GenInv (st : GenState) : Prop :=
  (st.rooms = [] → st.floors = ∅) ∧
  ∀ r₀, st.rooms.head? = some r₀ →
    (∀ c ∈ st.floors, Reaches st.floors r₀.center c) ∧
    (∀ r ∈ st.rooms, Reaches st.floors r₀.center r.center)

theorem attempt_geninv (st : GenState) (d : Draw) (h : GenInv st) :
    GenInv (attempt st d) := by
  obtain ⟨hempty, hconn⟩ := h
  unfold attempt
  by_cases hex : ∃ other ∈ st.rooms,
      (RectangularRoom.make d.x d.y d.w d.h).intersects other
  · simp only [hex, if_true]; exact ⟨hempty, hconn⟩
  · simp only [hex, if_false]
    cases hlast : st.rooms.getLast? with
    | none =>
        have hnil : st.rooms = [] := List.getLast?_eq_none_iff.mp hlast
        have hfl : st.floors = ∅ := hempty hnil
        refine ⟨by simp, ?_⟩
        intro r₀ hr₀
        rw [hnil] at hr₀
        simp only [List.nil_append, List.head?] at hr₀
        injection hr₀ with hr₀
        subst hr₀
        rw [hnil, hfl]
        constructor
        · intro c hc
          simp only [List.nil_append, Finset.empty_union] at hc ⊢
          exact inner_reaches _ _ (fun c' hc' => by simpa using hc') c hc
        · intro r hr
          simp only [List.nil_append, List.mem_singleton] at hr
          subst hr
          exact reaches_refl _ _
    | some prev =>
        have hprev : prev ∈ st.rooms := mem_of_getLast?_eq hlast
        have hne : st.rooms ≠ [] := by
          intro hn; rw [hn] at hprev; simp at hprev
        refine ⟨by simp, ?_⟩
        intro r₀ hr₀
        have hhead : st.rooms.head? = some r₀ := by
          cases hrooms : st.rooms with
          | nil => exact absurd hrooms hne
          | cons a as =>
              rw [hrooms] at hr₀
              simpa using hr₀
        obtain ⟨hFloors, hRooms⟩ := hconn r₀ hhead
        set new := RectangularRoom.make d.x d.y d.w d.h with hnewdef
        set F' := st.floors ∪ new.innerCells ∪
          (tunnel_between d.coin prev.center new.center).toFinset with hF'
        have hsubF : st.floors ⊆ F' := by
          intro c hc; rw [hF']
          exact Finset.mem_union_left _ (Finset.mem_union_left _ hc)
        have hsubI : ∀ c ∈ new.innerCells, c ∈ F' := by
          intro c hc; rw [hF']
          exact Finset.mem_union_left _ (Finset.mem_union_right _ hc)
        have hsubT : ∀ c ∈ tunnel_between d.coin prev.center new.center, c ∈ F' := by
          intro c hc; rw [hF']
          exact Finset.mem_union_right _ (List.mem_toFinset.mpr hc)
        have hReachPrev : Reaches F' r₀.center prev.center :=
          reaches_mono hsubF (hRooms prev hprev)
        have hTunnel : ∀ c ∈ tunnel_between d.coin prev.center new.center,
            Reaches F' prev.center c :=
          tunnel_reaches F' d.coin prev.center new.center hsubT
        have hReachNew : Reaches F' r₀.center new.center :=
          reaches_trans hReachPrev
            (hTunnel new.center (tunnel_stop_mem d.coin prev.center new.center))
        constructor
        · intro c hc
          simp only [Finset.mem_union, List.mem_toFinset] at hc
          rcases hc with (hc | hc) | hc
          · exact reaches_mono hsubF (hFloors c hc)
          · exact reaches_trans hReachNew (inner_reaches F' new hsubI c hc)
          · exact reaches_trans hReachPrev (hTunnel c hc)
        · intro r hr
          simp only [List.mem_append, List.mem_singleton] at hr
          rcases hr with hr | hr
          · exact reaches_mono hsubF (hRooms r hr)
          · subst hr; exact hReachNew

/-- C2: after `generate_dungeon` returns with at least one accepted room,
every carved floor cell — and every accepted room's center — is reachable
from the first accepted room's center through orthogonally adjacent carved
floor cells, for every sequence of random draws. -/
theorem generate_dungeon_floors_connected (draws : List Draw) (player0 : Cell)
    (r₀ : RectangularRoom)
    (h : (generate_dungeon draws player0).rooms.head? = some r₀) :
    (∀ c ∈ (generate_dungeon draws player0).floors,
        Reaches (generate_dungeon draws player0).floors r₀.center c) ∧
    (∀ r ∈ (generate_dungeon draws player0).rooms,
        Reaches (generate_dungeon draws player0).floors r₀.center r.center) := by
  have hinv : GenInv (generate_dungeon draws player0) := by
    refine foldl_preserves attempt GenInv (fun _ => True)
      (fun st d _ hp => attempt_geninv st d hp) draws
      { floors := ∅, rooms := [], player := player0 }
      (fun _ _ => trivial) ⟨fun _ => rfl, ?_⟩
    intro r₀' hr₀'
    simp at hr₀'
  exact hinv.2 r₀ h

/-- Witness for C2 on two concrete accepted rooms joined by a tunnel. -/
theorem generate_dungeon_floors_connected_witness :
    (generate_dungeon [⟨4, 4, 1, 1, true⟩, ⟨4, 4, 10, 10, true⟩] (0, 0)).rooms.head? =
      some ⟨1, 1, 5, 5⟩ ∧
    ((∀ c ∈ (generate_dungeon [⟨4, 4, 1, 1, true⟩, ⟨4, 4, 10, 10, true⟩] (0, 0)).floors,
        Reaches (generate_dungeon [⟨4, 4, 1, 1, true⟩, ⟨4, 4, 10, 10, true⟩] (0, 0)).floors
          (RectangularRoom.center ⟨1, 1, 5, 5⟩) c) ∧
     (∀ r ∈ (generate_dungeon [⟨4, 4, 1, 1, true⟩, ⟨4, 4, 10, 10, true⟩] (0, 0)).rooms,
        Reaches (generate_dungeon [⟨4, 4, 1, 1, true⟩, ⟨4, 4, 10, 10, true⟩] (0, 0)).floors
          (RectangularRoom.center ⟨1, 1, 5, 5⟩) r.center)) :=
  ⟨by decide,
    generate_dungeon_floors_connected [⟨4, 4, 1, 1, true⟩, ⟨4, 4, 10, 10, true⟩] (0, 0)
      ⟨1, 1, 5, 5⟩ (by decide)⟩

/-! ### Input handlers: shared engine model

`input_handlers.py` mutates an `Engine` object that is an excluded
collaborator (player entity, game map, message log, enemy-turn resolution,
field-of-view recompute).  Only the effects the handlers themselves cause
are modelled: `message_log.add_message` appends one `(text, color)` pair,
and `handle_enemy_turns` / `update_fov` are recorded as invocation
counters so that "was (not) invoked" is observable. -/

inductive ColorTag
  | white
  | impossible
  | invalid
deriving DecidableEq, Repr

inductive HandlerTag
  | mainGame
  | gameOver
  | historyViewer
  | inventoryActivate
  | inventoryDrop
  | look
deriving DecidableEq, Repr

structure Engine where
  event_handler : HandlerTag
  message_log : List (String × ColorTag)
  mouse_location : Int × Int
  map_width : Int
  map_height : Int
  player_x : Int
  player_y : Int
  inventory : List String
  enemy_turns_handled : Nat
  fov_updates : Nat
deriving DecidableEq, Repr

/-- `engine.message_log.add_message(text, color)`. -/
def add_message (e : Engine) (text : String) (c : ColorTag) : Engine :=
  { e with message_log := e.message_log ++ [(text, c)] }

/-- `engine.handle_enemy_turns()` (external): recorded as a counter. -/
def handle_enemy_turns (e : Engine) : Engine :=
  { e with enemy_turns_handled := e.enemy_turns_handled + 1 }

/-- `engine.update_fov()` (external): recorded as a counter. -/
def update_fov (e : Engine) : Engine :=
  { e with fov_updates := e.fov_updates + 1 }

/-- The observable result of `action.perform()` (the action system is an
excluded collaborator): it either succeeds or raises
`exceptions.Impossible` carrying a user-facing message. -/
inductive PerformOutcome
  | success
  | impossible (msg : String)
deriving DecidableEq, Repr

/-- `EventHandler.handle_action` from `input_handlers.py`: `None` means no
turn; a perform that raises `Impossible` appends the exception's message in
`color.impossible` and skips the enemy turn; a successful perform runs
`handle_enemy_turns` then `update_fov` and reports that a turn elapsed. -/
def handle_action (e : Engine) (action : Option PerformOutcome) : Engine × Bool :=
  match action with
  | none => (e, false)
  | some (.impossible msg) => (add_message e msg ColorTag.impossible, false)
  | some .success => (update_fov (handle_enemy_turns e), true)

/-- C3: for every action whose `perform()` fails with the `Impossible`
condition, `handle_action` appends exactly one message (the failure's
message, in the `impossible` color), returns `False` (no turn elapsed),
does not invoke enemy-turn processing or field-of-view recomputation, and
leaves the active handler unchanged (`MainGame` stays `MainGame`). -/
theorem handle_action_impossible (e : Engine) (msg : String) :
    (handle_action e (some (PerformOutcome.impossible msg))).2 = false ∧
    (handle_action e (some (PerformOutcome.impossible msg))).1.message_log =
      e.message_log ++ [(msg, ColorTag.impossible)] ∧
    (handle_action e (some (PerformOutcome.impossible msg))).1.enemy_turns_handled =
      e.enemy_turns_handled ∧
    (handle_action e (some (PerformOutcome.impossible msg))).1.fov_updates =
      e.fov_updates ∧
    (handle_action e (some (PerformOutcome.impossible msg))).1.event_handler =
      e.event_handler :=
  ⟨rfl, rfl, rfl, rfl, rfl⟩

/-! ### HistoryViewer (C4, C8) -/

/-- The keys `HistoryViewer.ev_keydown` distinguishes: the four
`CURSOR_Y_KEYS`, `HOME`, `END`, and anything else. -/
inductive HKey
  | keyUp
  | keyDown
  | keyPageup
  | keyPagedown
  | keyHome
  | keyEnd
  | keyOther
deriving DecidableEq, Repr

/-- `CURSOR_Y_KEYS`: UP -> -1, DOWN -> 1, PAGEUP -> -10, PAGEDOWN -> 10. -/
def CURSOR_Y_KEYS : HKey → Option Int
  | .keyUp => some (-1)
  | .keyDown => some 1
  | .keyPageup => some (-10)
  | .keyPagedown => some 10
  | _ => none

/-- `HistoryViewer` state: `log_length` snapshotted at construction,
`cursor` an integer index (Python ints, so it may go negative). -/
structure HistoryViewer where
  log_length : Int
  cursor : Int
deriving DecidableEq, Repr

/-- `HistoryViewer.__init__`: `log_length = len(messages)`,
`cursor = log_length - 1`. -/
def HistoryViewer.init (messages : List (String × ColorTag)) : HistoryViewer :=
  ⟨(messages.length : Int), (messages.length : Int) - 1⟩

/-- `HistoryViewer.ev_keydown`: cursor keys wrap at the exact edges
(`adjust < 0` at cursor 0 jumps to the bottom, `adjust > 0` at the bottom
jumps to 0) and clamp otherwise; HOME jumps to 0; END jumps to the last
message; any other key returns to the main game state (the `Bool` result
records that exit). -/
def HistoryViewer.ev_keydown (h : HistoryViewer) (k : HKey) :
    HistoryViewer × Bool :=
  match CURSOR_Y_KEYS k with
  | some adjust =>
      if adjust < 0 ∧ h.cursor = 0 then
        ({ h with cursor := h.log_length - 1 }, false)
      else if adjust > 0 ∧ h.cursor = h.log_length - 1 then
        ({ h with cursor := 0 }, false)
      else
        ({ h with cursor := max 0 (min (h.cursor + adjust) (h.log_length - 1)) }, false)
  | none =>
      match k with
      | .keyHome => ({ h with cursor := 0 }, false)
      | .keyEnd => ({ h with cursor := h.log_length - 1 }, false)
      | _ => (h, true)

/-- C4 counterexample: in a 20-message history with the cursor on the last
message (19), page-down does not clamp to `min(log_length-1, cursor+10) =
19`: it wraps the cursor to 0. -/
theorem historyviewer_pagedown_wraps_at_end :
    ((HistoryViewer.mk 20 19).ev_keydown HKey.keyPagedown).1.cursor = 0 ∧
    ¬ ((HistoryViewer.mk 20 19).ev_keydown HKey.keyPagedown).1.cursor =
        min ((19 : Int) + 10) (20 - 1) := by
  decide

/-- C4 (amended): for every cursor in `[0, log_length-1]`, page-up sets the
cursor to `max(0, cursor-10)` except exactly at cursor 0, where it wraps to
`log_length-1`; page-down sets it to `min(log_length-1, cursor+10)` except
exactly at cursor `log_length-1`, where it wraps to 0. -/
theorem historyviewer_page_keys (h : HistoryViewer)
    (hc0 : 0 ≤ h.cursor) (hc1 : h.cursor ≤ h.log_length - 1) :
    ((h.ev_keydown HKey.keyPageup).1.cursor =
        if h.cursor = 0 then h.log_length - 1 else max 0 (h.cursor - 10)) ∧
    ((h.ev_keydown HKey.keyPagedown).1.cursor =
        if h.cursor = h.log_length - 1 then 0
        else min (h.cursor + 10) (h.log_length - 1)) := by
  constructor
  · by_cases hc : h.cursor = 0
    · simp [HistoryViewer.ev_keydown, CURSOR_Y_KEYS, hc]
    · simp only [HistoryViewer.ev_keydown, CURSOR_Y_KEYS, hc]
      split_ifs <;> simp_all <;> omega
  · by_cases hc : h.cursor = h.log_length - 1
    · simp only [HistoryViewer.ev_keydown, CURSOR_Y_KEYS, hc]
      split_ifs <;> simp_all <;> omega
    · simp only [HistoryViewer.ev_keydown, CURSOR_Y_KEYS, hc]
      split_ifs <;> simp_all <;> omega

/-- Witness for C4 at the concrete state `log_length = 20`, `cursor = 5`. -/
theorem historyviewer_page_keys_witness :
    (0 : Int) ≤ 5 ∧ (5 : Int) ≤ 20 - 1 ∧
    (((HistoryViewer.mk 20 5).ev_keydown HKey.keyPageup).1.cursor =
        if (5 : Int) = 0 then (20 : Int) - 1 else max 0 ((5 : Int) - 10)) ∧
    (((HistoryViewer.mk 20 5).ev_keydown HKey.keyPagedown).1.cursor =
        if (5 : Int) = (20 : Int) - 1 then 0
        else min ((5 : Int) + 10) ((20 : Int) - 1)) := by
  refine ⟨by decide, by decide, ?_⟩
  exact historyviewer_page_keys (HistoryViewer.mk 20 5) (by decide) (by decide)

/-! ### C8: the cursor invariant -/

/-- Apply a sequence of key presses to a `HistoryViewer` (a key that exits
leaves the snapshot state unchanged). -/
def runKeys (h : HistoryViewer) (keys : List HKey) : HistoryViewer :=
  keys.foldl (fun h' k => (h'.ev_keydown k).1) h

theorem ev_keydown_preserves_range (L : Int) (hL : 1 ≤ L)
    (h : HistoryViewer) (k : HKey) (hl : h.log_length = L)
    (h0 : 0 ≤ h.cursor) (h1 : h.cursor ≤ L - 1) :
    (h.ev_keydown k).1.log_length = L ∧
    0 ≤ (h.ev_keydown k).1.cursor ∧
    (h.ev_keydown k).1.cursor ≤ L - 1 := by
  cases k <;>
    simp only [HistoryViewer.ev_keydown, CURSOR_Y_KEYS] <;>
    first
      | (split_ifs <;> simp_all <;> omega)
      | (refine ⟨hl, ?_, ?_⟩ <;> omega)

/-- C8 counterexample: constructing a `HistoryViewer` over an empty message
log sets the cursor to `-1`, outside `[0, log_length-1]`. -/
theorem historyviewer_init_empty_log :
    (HistoryViewer.init []).cursor = -1 ∧
    ¬ (0 ≤ (HistoryViewer.init []).cursor) := by
  decide

/-- C8 (amended): for every non-empty message log at construction time and
every sequence of key presses, the `HistoryViewer` cursor stays within
`[0, log_length-1]`; immediately after construction it equals
`log_length-1`. -/
theorem historyviewer_cursor_in_range (messages : List (String × ColorTag))
    (keys : List HKey) (hne : 1 ≤ messages.length) :
    (HistoryViewer.init messages).cursor =
        (HistoryViewer.init messages).log_length - 1 ∧
    0 ≤ (HistoryViewer.init messages).cursor ∧
    (HistoryViewer.init messages).cursor ≤
        (HistoryViewer.init messages).log_length - 1 ∧
    0 ≤ (runKeys (HistoryViewer.init messages) keys).cursor ∧
    (runKeys (HistoryViewer.init messages) keys).cursor ≤
        (HistoryViewer.init messages).log_length - 1 := by
  have hL : (1 : Int) ≤ (messages.length : Int) := by exact_mod_cast hne
  have hinit : (HistoryViewer.init messages).log_length = (messages.length : Int) := rfl
  have hrun := foldl_preserves (fun h' k => (h'.ev_keydown k).1)
    (fun h' => h'.log_length = (messages.length : Int) ∧
      0 ≤ h'.cursor ∧ h'.cursor ≤ (messages.length : Int) - 1)
    (fun _ => True)
    (fun h' k _ hp =>
      ev_keydown_preserves_range (messages.length : Int) hL h' k hp.1 hp.2.1 hp.2.2)
    keys (HistoryViewer.init messages) (fun _ _ => trivial)
    ⟨rfl, by show (0 : Int) ≤ (messages.length : Int) - 1; omega,
      by show (messages.length : Int) - 1 ≤ (messages.length : Int) - 1; omega⟩
  refine ⟨rfl, ?_, ?_, hrun.2.1, ?_⟩
  · show (0 : Int) ≤ (messages.length : Int) - 1; omega
  · show (messages.length : Int) - 1 ≤ (messages.length : Int) - 1; omega
  · show (runKeys (HistoryViewer.init messages) keys).cursor ≤
      (messages.length : Int) - 1
    exact hrun.2.2

/-- Witness for C8 on a one-message log and a concrete key sequence. -/
theorem historyviewer_cursor_in_range_witness :
    1 ≤ [("hello", ColorTag.white)].length ∧
    ((HistoryViewer.init [("hello", ColorTag.white)]).cursor =
        (HistoryViewer.init [("hello", ColorTag.white)]).log_length - 1 ∧
     0 ≤ (HistoryViewer.init [("hello", ColorTag.white)]).cursor ∧
     (HistoryViewer.init [("hello", ColorTag.white)]).cursor ≤
        (HistoryViewer.init [("hello", ColorTag.white)]).log_length - 1 ∧
     0 ≤ (runKeys (HistoryViewer.init [("hello", ColorTag.white)])
            [HKey.keyUp, HKey.keyPagedown]).cursor ∧
     (runKeys (HistoryViewer.init [("hello", ColorTag.white)])
            [HKey.keyUp, HKey.keyPagedown]).cursor ≤
        (HistoryViewer.init [("hello", ColorTag.white)]).log_length - 1) :=
  ⟨by decide,
    historyviewer_cursor_in_range [("hello", ColorTag.white)]
      [HKey.keyUp, HKey.keyPagedown] (by decide)⟩

/-! ### Key codes and modifier bitmasks

`tcod.event.KeySym` members are SDL keycodes (letters are their ASCII
codes; special keys are `0x40000000 | scancode`).  `event.mod` on a key
event is an SDL `KMOD_*` bitmask (`tcod.event.Modifier`), which is a
different numbering — `input_handlers.py` line 266-270 compares `event.mod`
against `KeySym` constants, and the embedding reproduces that literally. -/

def KeySym_a : Nat := 97
def KeySym_RETURN : Nat := 13
def KeySym_UP : Nat := 1073741906
def KeySym_DOWN : Nat := 1073741905
def KeySym_LEFT : Nat := 1073741904
def KeySym_RIGHT : Nat := 1073741903
def KeySym_HOME : Nat := 1073741898
def KeySym_END : Nat := 1073741901
def KeySym_PAGEUP : Nat := 1073741899
def KeySym_PAGEDOWN : Nat := 1073741902
def KeySym_KP_1 : Nat := 1073741913
def KeySym_KP_2 : Nat := 1073741914
def KeySym_KP_3 : Nat := 1073741915
def KeySym_KP_4 : Nat := 1073741916
def KeySym_KP_6 : Nat := 1073741918
def KeySym_KP_7 : Nat := 1073741919
def KeySym_KP_8 : Nat := 1073741920
def KeySym_KP_9 : Nat := 1073741921
def KeySym_KP_ENTER : Nat := 1073741912
def KeySym_LSHIFT : Nat := 1073742049
def KeySym_RSHIFT : Nat := 1073742053
def KeySym_LCTRL : Nat := 1073742048
def KeySym_RCTRL : Nat := 1073742052
def KeySym_LALT : Nat := 1073742050
def KeySym_RALT : Nat := 1073742054

def Modifier_LSHIFT : Nat := 1
def Modifier_RSHIFT : Nat := 2
def Modifier_LCTRL : Nat := 64
def Modifier_RCTRL : Nat := 128
def Modifier_LALT : Nat := 256
def Modifier_RALT : Nat := 512

/-- The `MOVE_KEYS` dictionary: arrow keys, numpad keys and vi keys to
direction vectors. -/
def MOVE_KEYS (k : Nat) : Option (Int × Int) :=
  if k = KeySym_UP then some (0, -1)
  else if k = KeySym_DOWN then some (0, 1)
  else if k = KeySym_LEFT then some (-1, 0)
  else if k = KeySym_RIGHT then some (1, 0)
  else if k = KeySym_HOME then some (-1, -1)
  else if k = KeySym_END then some (-1, 1)
  else if k = KeySym_PAGEUP then some (1, -1)
  else if k = KeySym_PAGEDOWN then some (1, 1)
  else if k = KeySym_KP_8 then some (0, -1)
  else if k = KeySym_KP_2 then some (0, 1)
  else if k = KeySym_KP_4 then some (-1, 0)
  else if k = KeySym_KP_6 then some (1, 0)
  else if k = KeySym_KP_7 then some (-1, -1)
  else if k = KeySym_KP_1 then some (-1, 1)
  else if k = KeySym_KP_9 then some (1, -1)
  else if k = KeySym_KP_3 then some (1, 1)
  else if k = 107 then some (0, -1)        -- k
  else if k = 106 then some (0, 1)         -- j
  else if k = 104 then some (-1, 0)        -- h
  else if k = 108 then some (1, 0)         -- l
  else if k = 121 then some (-1, -1)       -- y
  else if k = 98 then some (-1, 1)         -- b
  else if k = 117 then some (1, -1)        -- u
  else if k = 110 then some (1, 1)         -- n
  else none

/-- The `CONFIRM_KEYS` set: RETURN and KP_ENTER. -/
def CONFIRM_KEYS (k : Nat) : Bool :=
  k == KeySym_RETURN || k == KeySym_KP_ENTER

/-- The pure-modifier keys `AskUserEventHandler.ev_keydown` ignores. -/
def isModifierKey (k : Nat) : Bool :=
  k == KeySym_LSHIFT || k == KeySym_RSHIFT ||
  k == KeySym_LCTRL || k == KeySym_RCTRL ||
  k == KeySym_LALT || k == KeySym_RALT

/-- A key-down event: symbolic keycode `sym` plus modifier bitmask `mod`. -/
structure KeyEvent where
  sym : Nat
  mod : Nat
deriving DecidableEq, Repr

/-! ### SelectIndexHandler (C5) -/

/-- The observable result of `SelectIndexHandler.ev_keydown`: the cursor
moved (no action), the selection callback fired with the cursor
coordinates, a pure-modifier key was ignored, or the `AskUser` default
exited to `MainGame`. -/
inductive SelectIndexOutcome
  | cursorMoved
  | indexSelected (x y : Int)
  | modifierIgnored
  | exited
deriving DecidableEq, Repr

/-- `SelectIndexHandler.ev_keydown`: a movement key scales its direction by
`modifier` (built by the three `event.mod & (KeySym ... | KeySym ...)`
tests exactly as written in the source), adds it to `engine.mouse_location`
and clamps to `[0, width-1] x [0, height-1]`, returning no action; a
confirm key fires `on_index_selected` with the cursor; anything else falls
through to the `AskUser` default. -/
def selectIndex_ev_keydown (e : Engine) (ev : KeyEvent) :
    Engine × SelectIndexOutcome :=
  match MOVE_KEYS ev.sym with
  | some dxy =>
      let m1 : Int := 1
      let m2 : Int :=
        if ev.mod &&& (KeySym_LSHIFT ||| KeySym_RSHIFT) ≠ 0 then m1 * 5 else m1
      let m3 : Int :=
        if ev.mod &&& (KeySym_LCTRL ||| KeySym_RCTRL) ≠ 0 then m2 * 10 else m2
      let modifier : Int :=
        if ev.mod &&& (KeySym_LALT ||| KeySym_RALT) ≠ 0 then m3 * 20 else m3
      let x := e.mouse_location.1 + dxy.1 * modifier
      let y := e.mouse_location.2 + dxy.2 * modifier
      let x := max 0 (min x (e.map_width - 1))
      let y := max 0 (min y (e.map_height - 1))
      ({ e with mouse_location := (x, y) }, SelectIndexOutcome.cursorMoved)
  | none =>
      if CONFIRM_KEYS ev.sym then
        (e, SelectIndexOutcome.indexSelected e.mouse_location.1 e.mouse_location.2)
      else if isModifierKey ev.sym then
        (e, SelectIndexOutcome.modifierIgnored)
      else
        ({ e with event_handler := HandlerTag.mainGame }, SelectIndexOutcome.exited)

/-- A concrete engine state used by the handler evaluations below. -/
def sampleEngine : Engine :=
  { event_handler := HandlerTag.look
    message_log := []
    mouse_location := (0, 0)
    map_width := 80
    map_height := 45
    player_x := 0
    player_y := 0
    inventory := ["dagger"]
    enemy_turns_handled := 0
    fov_updates := 0 }

/-- C5 evaluation at the failing inputs: because lines 266-270 of
`input_handlers.py` test `event.mod` against `KeySym` keycode constants
instead of `Modifier` bitmask constants, holding only right-shift
(`mod = 2`) during a right-arrow press moves the cursor by 20 (the alt
branch fires), not by the claimed 5, and holding only left-alt
(`mod = 256`) moves it by 1, not by the claimed 20. -/
theorem selectIndex_modifier_bug_eval :
    (selectIndex_ev_keydown sampleEngine ⟨KeySym_RIGHT, Modifier_RSHIFT⟩).1.mouse_location =
      (20, 0) ∧
    (selectIndex_ev_keydown sampleEngine ⟨KeySym_RIGHT, Modifier_RSHIFT⟩).2 =
      SelectIndexOutcome.cursorMoved ∧
    (20 : Int) ≠ 5 ∧
    (selectIndex_ev_keydown sampleEngine ⟨KeySym_RIGHT, Modifier_LALT⟩).1.mouse_location =
      (1, 0) ∧
    (1 : Int) ≠ 20 := by
  refine ⟨by decide, by decide, by decide, by decide, by decide⟩

/-! ### InventoryEventHandler (C6) -/

/-- The observable result of `InventoryEventHandler.ev_keydown`:
`on_item_selected` fired on an inventory item (Activate and Drop only
differ in the action they build from it), an "Invalid entry" report, a
pure-modifier key ignored, or the `AskUser` default exit. -/
inductive InventoryOutcome
  | itemSelected (item : String)
  | invalidEntry
  | modifierIgnored
  | exited
deriving DecidableEq, Repr

/-- `InventoryEventHandler.ev_keydown`: `index = key - KeySym.a`; if
`0 <= index <= 26`, look up `player.inventory.items[index]` — an
`IndexError` appends "Invalid entry" in `color.invalid` and returns no
action, a hit dispatches `on_item_selected`; any other key falls through to
the `AskUser` default. -/
def inventory_ev_keydown (e : Engine) (ev : KeyEvent) :
    Engine × InventoryOutcome :=
  let index : Int := (ev.sym : Int) - (KeySym_a : Int)
  if 0 ≤ index ∧ index ≤ 26 then
    match e.inventory.get? index.toNat with
    | none => (add_message e "Invalid entry" ColorTag.invalid,
               InventoryOutcome.invalidEntry)
    | some item => (e, InventoryOutcome.itemSelected item)
  else if isModifierKey ev.sym then (e, InventoryOutcome.modifierIgnored)
  else ({ e with event_handler := HandlerTag.mainGame }, InventoryOutcome.exited)

/-- C6: for every letter key press in an inventory handler, the selected
index is the key's offset from `a`; if that index is in `[0, 26]` but at
least the current inventory size, the handler appends an "Invalid entry"
message, produces no item selection and keeps the active handler; if the
index is below the inventory size, the mode-specific item-selection
callback is invoked on the item at that index. -/
theorem inventory_letter_selection (e : Engine) (ev : KeyEvent)
    (h0 : 0 ≤ (ev.sym : Int) - (KeySym_a : Int))
    (h26 : (ev.sym : Int) - (KeySym_a : Int) ≤ 26) :
    (e.inventory.length ≤ ((ev.sym : Int) - (KeySym_a : Int)).toNat →
      inventory_ev_keydown e ev =
        (add_message e "Invalid entry" ColorTag.invalid,
         InventoryOutcome.invalidEntry) ∧
      (inventory_ev_keydown e ev).1.event_handler = e.event_handler) ∧
    (∀ item, e.inventory.get? ((ev.sym : Int) - (KeySym_a : Int)).toNat = some item →
      inventory_ev_keydown e ev = (e, InventoryOutcome.itemSelected item)) := by
  constructor
  · intro hlen
    have hnone : e.inventory.get? ((ev.sym : Int) - (KeySym_a : Int)).toNat = none :=
      List.get?_eq_none.mpr hlen
    have heq : inventory_ev_keydown e ev =
        (add_message e "Invalid entry" ColorTag.invalid,
         InventoryOutcome.invalidEntry) := by
      unfold inventory_ev_keydown
      simp only [h0, h26, and_self, if_true, hnone]
    refine ⟨heq, ?_⟩
    rw [heq]
    rfl
  · intro item hsome
    unfold inventory_ev_keydown
    simp only [h0, h26, and_self, if_true, hsome]

/-- Witness for C6: pressing `b` (`index 1`) with a one-item inventory
takes the "Invalid entry" branch. -/
theorem inventory_letter_selection_witness :
    (0 ≤ ((98 : Nat) : Int) - (KeySym_a : Int) ∧
     ((98 : Nat) : Int) - (KeySym_a : Int) ≤ 26) ∧
    ((sampleEngine.inventory.length ≤ (((98 : Nat) : Int) - (KeySym_a : Int)).toNat →
      inventory_ev_keydown sampleEngine ⟨98, 0⟩ =
        (add_message sampleEngine "Invalid entry" ColorTag.invalid,
         InventoryOutcome.invalidEntry) ∧
      (inventory_ev_keydown sampleEngine ⟨98, 0⟩).1.event_handler =
        sampleEngine.event_handler) ∧
    (∀ item,
      sampleEngine.inventory.get? (((98 : Nat) : Int) - (KeySym_a : Int)).toNat =
          some item →
      inventory_ev_keydown sampleEngine ⟨98, 0⟩ =
        (sampleEngine, InventoryOutcome.itemSelected item))) :=
  ⟨⟨by decide, by decide⟩,
    inventory_letter_selection sampleEngine ⟨98, 0⟩ (by decide) (by decide)⟩
